import Mathlib

/-!
# Verification of the oak PEG compiler against its specification

This file shallowly embeds the parts of the `oak` PEG-compiler sources that
the specification's claims are about:

* the matcher code generated by `PegCompiler` in `src/libpeg/compiler.rs`
  (sequence, choice, repetition, predicates, character classes), modelled as
  combinators over matchers of type `List Char → Nat → Except String Nat`,
  which is the `Result<uint, String>` signature of every generated matcher
  (`fn f(input: &str, pos: uint) -> Result<uint, String>`);
* the capture-type inference (`type_of_expr` and friends in `compiler.rs`);
* the attribute records of `src/libpeg/middle/attribute/attribute.rs`.

Positions are modelled as code-point indices into the input (a `List Char`):
the source stores byte offsets but advances only at code-point boundaries,
and none of the verified properties depends on the byte width of a
character.  A runtime panic (out-of-bounds `char_range_at`) is modelled as
`none` in an `Option`-wrapped result, and the possible non-termination of
the generated `star` loop is modelled with explicit fuel.
-/

namespace Oak

/-- The result type of every generated matcher:
`Result<uint, String>` in the generated Rust code. -/
abbrev MatchResult := Except String Nat

/-- A generated matcher: `fn (input: &str, pos: uint) -> Result<uint, String>`. -/
abbrev Matcher := List Char → Nat → MatchResult

/-! ## Generated matcher combinators (compiler.rs)

Each combinator is the direct transliteration of the Rust expression that
`PegCompiler` splices around the already-compiled child expressions; the
child matchers appear as parameters. -/

/-- One step of `compile_sequence` (compiler.rs 243-256):
`match $head { Ok(pos) => $tail, x => x }`.  The `Ok(pos)` arm rebinds
`pos`, so the tail starts at the position the head returned. -/
def seqComp (head tail : Matcher) : Matcher := fun input pos =>
  match head input pos with
  | .ok pos' => tail input pos'
  | .error e => .error e

/-- `compile_sequence` via `map_foldr_expr` (compiler.rs 230-256): the last
child is the fold's base and every earlier child wraps it with `seqComp`.
The compiler asserts the list is non-empty; `[]` gets a vacuous value. -/
def runSequence : List Matcher → Matcher
  | [] => fun _ pos => .ok pos
  | [m] => m
  | m :: m' :: ms => seqComp m (runSequence (m' :: ms))

/-- One step of `compile_choice` (compiler.rs 258-271):
`match $head { Err(_) => $tail, x => x }`.  The `Err(_)` arm binds nothing,
so the tail is evaluated at the original entry `pos`. -/
def choiceComp (head tail : Matcher) : Matcher := fun input pos =>
  match head input pos with
  | .error _ => tail input pos
  | r => r

/-- `compile_choice` via `map_foldr_expr` (compiler.rs 230-241, 258-271). -/
def runChoice : List Matcher → Matcher
  | [] => fun _ _ => .error ""
  | [m] => m
  | m :: m' :: ms => choiceComp m (runChoice (m' :: ms))

/-- `compile_not_predicate` (compiler.rs 357-365):
`match $expr { Ok(_) => Err(format!("An `!expr` failed.")), _ => Ok(pos) }`. -/
def notPredComp (m : Matcher) : Matcher := fun input pos =>
  match m input pos with
  | .ok _ => .error "An `!expr` failed."
  | .error _ => .ok pos

/-- `compile_and_predicate` (compiler.rs 367-375):
`match $expr { Ok(_) => Ok(pos), x => x }`. -/
def andPredComp (m : Matcher) : Matcher := fun input pos =>
  match m input pos with
  | .ok _ => .ok pos
  | .error e => .error e

/-- `compile_optional` (compiler.rs 346-355):
`match $expr { Ok(pos) => Ok(pos), _ => Ok(pos) }`. -/
def optionalComp (m : Matcher) : Matcher := fun input pos =>
  match m input pos with
  | .ok pos' => .ok pos'
  | .error _ => .ok pos

/-! ## The `star` loop (compiler.rs 299-326)

`compile_star` emits

```
let mut npos = pos;
while npos < input.len() {
  let pos = npos;
  match $expr { Ok(pos) => { npos = pos; }, _ => break }
}
Ok(npos)
```

The `while` loop need not terminate (nothing stops a child that succeeds
without advancing), so it is modelled with explicit fuel: `none` means the
loop has not produced a result within `fuel` iterations — in particular,
`starLoop … fuel pos = none` for *every* `fuel` means the generated loop
runs forever on that input. -/

/-- The body of the generated `star` loop, with `npos` as the loop
variable and one unit of fuel per iteration. -/
def starLoop (m : Matcher) (input : List Char) : Nat → Nat → Option Nat
  | 0, _ => none
  | fuel + 1, npos =>
    if npos < input.length then
      match m input npos with
      | .ok pos' => starLoop m input fuel pos'
      | .error _ => some npos
    else
      some npos

/-- The whole generated `star` function: when the loop finishes at `npos`
it returns `Ok(npos)`. -/
def runStar (fuel : Nat) (m : Matcher) (input : List Char) (pos : Nat) :
    Option MatchResult :=
  (starLoop m input fuel pos).map Except.ok

/-! ## Runtime primitives

The `peg::runtime` module is part of the repository but its source is not
among the files under verification; the primitives the generated code calls
are modelled from the specification's contract table. -/

/-- Modelled from the spec: the runtime primitive
`match_literal(input, pos, lit, n)` — source file `runtime` is not under
`src/`.  Success is `pos + n` when `input[pos…]` starts with `lit`,
failure is an "expected `lit`" error. -/
def match_literal (lit : List Char) (input : List Char) (pos : Nat) :
    MatchResult :=
  if (input.drop pos).take lit.length = lit then
    .ok (pos + lit.length)
  else
    .error "expected literal"

/-- Modelled from the spec: the runtime primitive
`any_single_char(input, pos)` — source file `runtime` is not under `src/`.
It advances by one code point, and reports "unexpected end of input" when
`pos ≥ len(input)`. -/
def any_single_char (input : List Char) (pos : Nat) : MatchResult :=
  if pos < input.length then
    .ok (pos + 1)
  else
    .error "unexpected end of input"

end Oak

namespace Oak

/-! ## First theorems: predicate and sequence/choice contracts -/

/-- Helper: a result is an error. -/
def MatchResult.isErr : MatchResult → Bool
  | .error _ => true
  | .ok _ => false

/-- **C6.** For every child matcher `m` (the compiled expression `e`),
every input and entry position, the generated `!e` and `&e` matchers leave
the position unchanged on all outcomes: when `e` succeeds, `!e` returns the
synthetic "unexpected match" error and `&e` returns the entry position;
when `e` fails, `!e` returns the entry position and `&e` returns `e`'s
error. -/
theorem predicate_contract (m : Matcher) (input : List Char) (pos : Nat) :
    (∀ p, m input pos = .ok p →
      notPredComp m input pos = .error "An `!expr` failed." ∧
      andPredComp m input pos = .ok pos) ∧
    (∀ e, m input pos = .error e →
      notPredComp m input pos = .ok pos ∧
      andPredComp m input pos = .error e) := by
  constructor
  · intro p hp
    simp [notPredComp, andPredComp, hp]
  · intro e he
    simp [notPredComp, andPredComp, he]

/-- Witness for `predicate_contract` at a concrete child matcher. -/
theorem predicate_contract_witness :
    notPredComp (fun _ p => .ok (p + 1)) ['a'] 0 = .error "An `!expr` failed." ∧
    andPredComp (fun _ p => .ok (p + 1)) ['a'] 0 = .ok 0 :=
  (predicate_contract (fun _ p => .ok (p + 1)) ['a'] 0).1 1 rfl

/-! ## Sequence threading (C7)

`SeqThread input pos ms r` is the specification-side description of the
sequence contract: starting at `pos`, the children in `ms` are run in
order, each starting at the position returned by the previous one; the
result `r` is the last child's `Ok` position when all succeed, and the
error of the first child that fails otherwise. -/

/-- Left-to-right position threading through a list of child matchers. -/
inductive SeqThread (input : List Char) : Nat → List Matcher → MatchResult → Prop
  | nil (pos : Nat) : SeqThread input pos [] (.ok pos)
  | consOk (pos p : Nat) (m : Matcher) (ms : List Matcher) (r : MatchResult) :
      m input pos = .ok p → SeqThread input p ms r →
      SeqThread input pos (m :: ms) r
  | consErr (pos : Nat) (e : String) (m : Matcher) (ms : List Matcher) :
      m input pos = .error e →
      SeqThread input pos (m :: ms) (.error e)

/-- The compiled sequence agrees with whatever the threading relation
prescribes (soundness half of C7). -/
theorem runSequence_of_seqThread (input : List Char) :
    ∀ (ms : List Matcher) (pos : Nat) (r : MatchResult),
      SeqThread input pos ms r → runSequence ms input pos = r := by
  intro ms pos r h
  induction h with
  | nil pos => rfl
  | consOk pos p m ms r hm _ ih =>
    cases ms with
    | nil =>
      cases ih
      simpa [runSequence] using hm
    | cons m' ms' =>
      simp [runSequence, seqComp, hm, ih]
  | consErr pos e m ms hm =>
    cases ms with
    | nil => simpa [runSequence] using hm
    | cons m' ms' => simp [runSequence, seqComp, hm]

/-- The compiled sequence always produces a threaded run (completeness
half of C7). -/
theorem seqThread_runSequence (input : List Char) :
    ∀ (ms : List Matcher) (pos : Nat),
      SeqThread input pos ms (runSequence ms input pos) := by
  intro ms
  induction ms with
  | nil => intro pos; exact .nil pos
  | cons m ms ih =>
    intro pos
    cases ms with
    | nil =>
      cases hm : m input pos with
      | ok p =>
        exact .consOk pos p m [] _ (by simpa [runSequence] using hm)
          (by simpa [runSequence, hm] using SeqThread.nil p)
      | error e =>
        have : runSequence [m] input pos = .error e := by
          simpa [runSequence] using hm
        rw [this]
        exact .consErr pos e m [] hm
    | cons m' ms' =>
      cases hm : m input pos with
      | ok p =>
        have : runSequence (m :: m' :: ms') input pos
            = runSequence (m' :: ms') input p := by
          simp [runSequence, seqComp, hm]
        rw [this]
        exact .consOk pos p m (m' :: ms') _ hm (ih p)
      | error e =>
        have : runSequence (m :: m' :: ms') input pos = .error e := by
          simp [runSequence, seqComp, hm]
        rw [this]
        exact .consErr pos e m (m' :: ms') hm

/-- **C7.** For every `Sequence(a, b, …)` (given by the compiled child
matchers `ms`), every input and entry position, the generated matcher
threads the position through the children in order — each child starts at
the position returned by the previous one; on success it returns the last
child's resulting position and on failure the error of the first failing
child.  Formally: the compiled fold equals the result prescribed by the
threading relation `SeqThread`, and such a threaded run always exists. -/
theorem sequence_contract (input : List Char) (ms : List Matcher) (pos : Nat) :
    (∀ r : MatchResult, SeqThread input pos ms r → runSequence ms input pos = r) ∧
    SeqThread input pos ms (runSequence ms input pos) :=
  ⟨fun r h => runSequence_of_seqThread input ms pos r h,
   seqThread_runSequence input ms pos⟩

/-- Witness for `sequence_contract`: a two-child sequence whose children
advance by one and two positions respectively. -/
theorem sequence_contract_witness :
    runSequence [fun _ p => .ok (p + 1), fun _ p => .ok (p + 2)]
      ['a', 'b', 'c'] 0 = .ok 3 :=
  (sequence_contract ['a', 'b', 'c']
      [fun _ p => .ok (p + 1), fun _ p => .ok (p + 2)] 0).1 (.ok 3)
    (.consOk 0 1 _ _ _ rfl (.consOk 1 3 _ _ _ rfl (.nil 3)))

/-! ## Ordered choice (C2) -/

/-- If the head of a compiled choice fails, the fold moves on to the rest
at the unchanged entry position. -/
theorem runChoice_cons_error (m m' : Matcher) (ms : List Matcher)
    (input : List Char) (pos : Nat) (e : String)
    (hm : m input pos = .error e) :
    runChoice (m :: m' :: ms) input pos = runChoice (m' :: ms) input pos := by
  simp [runChoice, choiceComp, hm]

/-- If the head of a compiled choice succeeds, that is the result. -/
theorem runChoice_cons_ok (m m' : Matcher) (ms : List Matcher)
    (input : List Char) (pos : Nat) (p : Nat)
    (hm : m input pos = .ok p) :
    runChoice (m :: m' :: ms) input pos = .ok p := by
  simp [runChoice, choiceComp, hm]

/-- **C2.** For every `Choice(a, b, …)` (given by the compiled alternative
matchers `ms`), every input and entry position: the alternatives are tried
strictly left-to-right, each starting at the choice's entry position `pos`;
the generated matcher returns the result of the first alternative that
succeeds (all alternatives before it having failed), and when every
alternative fails it returns the result — an error — of the last
alternative. -/
theorem choice_contract (ms : List Matcher) (input : List Char) (pos : Nat) :
    (∀ (i : Nat) (hi : i < ms.length) (p : Nat),
        (∀ j, (hj : j < i) → ∃ e, ms.get ⟨j, by omega⟩ input pos = .error e) →
        ms.get ⟨i, hi⟩ input pos = .ok p →
        runChoice ms input pos = .ok p) ∧
    (∀ hne : ms ≠ [],
        (∀ (i : Nat) (hi : i < ms.length), ∃ e, ms.get ⟨i, hi⟩ input pos = .error e) →
        runChoice ms input pos = ms.getLast hne input pos) := by
  induction ms with
  | nil =>
    refine ⟨fun i hi => absurd hi (by simp), fun hne => absurd rfl hne⟩
  | cons m ms ih =>
    constructor
    · intro i hi p hprefix hok
      cases ms with
      | nil =>
        have hi0 : i = 0 := by simp at hi; omega
        subst hi0
        simpa [runChoice] using hok
      | cons m' ms' =>
        cases i with
        | zero =>
          exact runChoice_cons_ok m m' ms' input pos p hok
        | succ i' =>
          obtain ⟨e, he⟩ := hprefix 0 (by omega)
          rw [runChoice_cons_error m m' ms' input pos e he]
          exact ih.1 i' (by simpa using hi) p
            (fun j hj => hprefix (j + 1) (by omega)) hok
    · intro hne hall
      cases ms with
      | nil =>
        simp [runChoice, List.getLast]
      | cons m' ms' =>
        obtain ⟨e, he⟩ := hall 0 (by simp)
        rw [runChoice_cons_error m m' ms' input pos e he]
        rw [ih.2 (by simp) (fun i hi => hall (i + 1) (by simpa using hi))]
        simp [List.getLast]

/-- Witness for `choice_contract`: the first alternative fails, the second
succeeds, so the choice returns the second alternative's result. -/
theorem choice_contract_witness :
    runChoice [fun _ _ => .error "e1", fun _ p => .ok (p + 1)] ['a'] 0 = .ok 1 :=
  (choice_contract [fun _ _ => .error "e1", fun _ p => .ok (p + 1)] ['a'] 0).1
    1 (by simp) 1
    (fun j hj =>
      match j, hj with
      | 0, _ => ⟨"e1", rfl⟩)
    rfl

/-! ## ZeroOrMore termination (C1)

The generated `star` loop only leaves its `while` when the child fails or
when `npos` reaches `input.len()`.  A child that *succeeds without
advancing* at a position strictly before the end of input therefore makes
the loop run forever: the guard `npos < input.len()` stays true and the
`Ok` arm never breaks.  The concrete grammar expression
`ZeroOrMore(AndPredicate(StrLiteral "a"))` — surface syntax `(&"a")*` —
exhibits this on input `"a"`: the and-predicate matches zero-width at
position 0. -/

/-- **C1.** (The claim fails on the code; this theorem evaluates the
generated code at the failing input.)  The matcher generated for
`ZeroOrMore(AndPredicate(StrLiteral "a"))` on input `"a"` at entry
position 0 never produces a result, however much fuel the loop is given:
the zero-width success of the child does *not* terminate the loop, so the
generated `while` loop diverges, contradicting the claimed guarantee that
the matcher terminates and returns the entry position. -/
theorem star_zero_width_diverges (fuel : Nat) :
    runStar fuel (andPredComp (match_literal ['a'])) ['a'] 0 = none := by
  have hchild : andPredComp (match_literal ['a']) ['a'] 0 = .ok 0 := by
    simp [andPredComp, match_literal]
  have hloop : ∀ f : Nat,
      starLoop (andPredComp (match_literal ['a'])) ['a'] f 0 = none := by
    intro f
    induction f with
    | zero => rfl
    | succ f ih =>
      simp [starLoop, hchild, ih]
  simp [runStar, hloop]

/-! ## Character classes (C10)

`compile_character_class` (compiler.rs 377-402) emits

```
let current = input.char_range_at(pos).ch;
if $cond { Ok(input.char_range_at(pos).next) }
else { Err(format!("It doesn't match the character class.")) }
```

`char_range_at` has the precondition that `pos` is inside the string; at or
beyond the end it panics (modelled as `none`).  There is no end-of-input
check and no end-of-input error branch in the generated function. -/

/-- A scalar range `[lo, hi]` of a character class
(`CharacterInterval` in front/ast). -/
structure CharacterInterval where
  lo : Char
  hi : Char

/-- `input.char_range_at(pos)`: the code point at `pos` and the position
just after it; `none` models the out-of-bounds panic when
`pos ≥ len(input)`. -/
def char_range_at (input : List Char) (pos : Nat) : Option (Char × Nat) :=
  if h : pos < input.length then some (input.get ⟨pos, h⟩, pos + 1) else none

/-- The membership condition built by `compile_character_class`: the first
interval's test is the fold's seed and each further interval is or-ed on,
exactly as the source folds `$accu || (current >= $lo && current <= $hi)`.
The compiler asserts the interval list is non-empty; `[]` gets `false`. -/
def classCond : List CharacterInterval → Char → Bool
  | [], _ => false
  | iv :: ivs, current =>
    ivs.foldl (fun accu iv2 => accu || (iv2.lo ≤ current && current ≤ iv2.hi))
      (iv.lo ≤ current && current ≤ iv.hi)

/-- The generated character-class matcher.  A `none` result models the
panic of `char_range_at` past the end of input. -/
def classChar (ivs : List CharacterInterval) (input : List Char) (pos : Nat) :
    Option MatchResult :=
  match char_range_at input pos with
  | some cr =>
    some (if classCond ivs cr.1 then .ok cr.2
          else .error "It doesn't match the character class.")
  | none => none

/-- **C10.** For every generated `CharacterClass` matcher, at a position at
or beyond the end of the input the matcher evaluates
`input.char_range_at(pos)` with no preceding end-of-input check and no
end-of-input error branch: it crashes (modelled `none`) rather than
returning an `Err` result — unlike the `AnySingleChar` primitive, which at
end of input returns the "unexpected end of input" error. -/
theorem character_class_eof_contract (ivs : List CharacterInterval)
    (input : List Char) (pos : Nat) (h : input.length ≤ pos) :
    classChar ivs input pos = none ∧
    (∀ e, classChar ivs input pos ≠ some (.error e)) ∧
    any_single_char input pos = .error "unexpected end of input" := by
  have hcr : char_range_at input pos = none := by
    simp [char_range_at, Nat.not_lt.mpr h]
  refine ⟨?_, ?_, ?_⟩
  · simp [classChar, hcr]
  · intro e
    simp [classChar, hcr]
  · simp [any_single_char, Nat.not_lt.mpr h]

/-- Witness for `character_class_eof_contract`: the class `[a-z]` invoked
at position 1 of the one-character input `"a"`. -/
theorem character_class_eof_contract_witness :
    classChar [⟨'a', 'z'⟩] ['a'] 1 = none ∧
    (∀ e, classChar [⟨'a', 'z'⟩] ['a'] 1 ≠ some (.error e)) ∧
    any_single_char ['a'] 1 = .error "unexpected end of input" :=
  character_class_eof_contract [⟨'a', 'z'⟩] ['a'] 1 (by decide)

/-! ## Attribute records (middle/attribute/attribute.rs) -/

/-- A source span; only its identity matters for the attribute record
(spans never affect parsing outcomes). -/
structure Span where
  lo : Nat
  hi : Nat
deriving DecidableEq

/-- `DUMMY_SP`. -/
def dummySpan : Span := ⟨0, 0⟩

/-- Severity of a diagnostic sent to the host's sink. -/
inductive Severity
  | note
  | warning
  | error
  | fatal
deriving DecidableEq

/-- A diagnostic `(severity, message)` recorded on the host's sink. -/
structure Diagnostic where
  severity : Severity
  msg : String
deriving DecidableEq

/-- `enum DefaultOrRequired<T>` (attribute.rs 18-22). -/
inductive DefaultOrRequired (A : Type)
  | Default (v : A)
  | Required (msg : String)

/-- `struct AttributeInfo<A>` (attribute.rs 24-29). -/
structure AttributeInfo (A : Type) where
  value : Option A
  span : Span
  default : DefaultOrRequired A

/-- `AttributeInfo::has_value` (attribute.rs 33-36). -/
def AttributeInfo.has_value (info : AttributeInfo A) : Bool :=
  info.value.isSome

/-- `AttributeInfo::set` (attribute.rs 38-42):
`self.value = Some(value); self.span = span;`. -/
def AttributeInfo.set (info : AttributeInfo A) (v : A) (sp : Span) :
    AttributeInfo A :=
  { info with value := some v, span := sp }

/-- `AttributeInfo::value` (attribute.rs 44-54), renamed `getValue` because
the record field is also called `value`.  The diagnostics the call records
on `cx`'s sink are returned alongside the result. -/
def AttributeInfo.getValue (info : AttributeInfo A) :
    Option A × List Diagnostic :=
  match info.value, info.default with
  | none, .Required err => (none, [⟨.error, err⟩])
  | none, .Default v => (some v, [])
  | _, _ => (info.value, [])

/-- Modelled from the spec: the map-level `set(map, name, value, span)`
operation of the attribute system (§4.5); the attribute-map code that
emits the duplicate-assignment warning is part of the repository but not
among the files under verification.  It stores through
`AttributeInfo.set` and, when a value was already present, records a
*warning* diagnostic (never an error). -/
def setAttrChecked (info : AttributeInfo A) (v : A) (sp : Span) :
    AttributeInfo A × List Diagnostic :=
  (info.set v sp,
   if info.value.isSome then [⟨.warning, "duplicate attribute assignment"⟩]
   else [])

/-- **C8.** For every attribute record: `value` returns the stored value
when one is present; when no value is stored and the default is
`Required(msg)` it records an error diagnostic and returns none; when no
value is stored and the default is `Default(v)` it returns `v` without
recording any diagnostic. -/
theorem attribute_value_contract (A : Type) (info : AttributeInfo A) :
    (∀ v, info.value = some v → info.getValue = (some v, [])) ∧
    (∀ msg, info.value = none → info.default = .Required msg →
      info.getValue = (none, [⟨.error, msg⟩])) ∧
    (∀ v, info.value = none → info.default = .Default v →
      info.getValue = (some v, [])) := by
  refine ⟨?_, ?_, ?_⟩
  · intro v hv
    cases hd : info.default <;> simp [AttributeInfo.getValue, hv, hd]
  · intro msg hv hd
    simp [AttributeInfo.getValue, hv, hd]
  · intro v hv hd
    simp [AttributeInfo.getValue, hv, hd]

/-- Witness for `attribute_value_contract`: a required attribute with no
stored value records an error diagnostic carrying the required-message. -/
theorem attribute_value_contract_witness :
    AttributeInfo.getValue
        ⟨none, dummySpan, (DefaultOrRequired.Required "attr missing" : DefaultOrRequired Bool)⟩
      = (none, [⟨.error, "attr missing"⟩]) :=
  (attribute_value_contract Bool
      ⟨none, dummySpan, .Required "attr missing"⟩).2.1 "attr missing" rfl rfl

/-- **C9.** For every attribute record, `set` is last-write-wins: after
`set(value, span)` the stored value and span equal the arguments,
regardless of any earlier write (the statement holds for an arbitrary
prior record, in particular for one already written to); and a second
write — one performed on a record that already holds a value — produces a
warning diagnostic and never an error diagnostic. -/
theorem attribute_set_contract (A : Type) (info : AttributeInfo A)
    (v : A) (sp : Span) :
    ((info.set v sp).value = some v ∧ (info.set v sp).span = sp) ∧
    (info.value.isSome →
      (setAttrChecked info v sp).2 = [⟨.warning, "duplicate attribute assignment"⟩]) ∧
    (∀ d ∈ (setAttrChecked info v sp).2, d.severity = .warning ∧ d.severity ≠ .error) := by
  refine ⟨⟨rfl, rfl⟩, ?_, ?_⟩
  · intro hsome
    simp [setAttrChecked, hsome]
  · intro d hd
    by_cases hsome : info.value.isSome
    · simp [setAttrChecked, hsome] at hd
      subst hd
      exact ⟨rfl, by decide⟩
    · simp [setAttrChecked, hsome] at hd

/-- Witness for `attribute_set_contract`: writing `false` over a record
that already stores `true` keeps the new value and span and yields exactly
one warning diagnostic. -/
theorem attribute_set_contract_witness :
    ((AttributeInfo.set ⟨some true, dummySpan, .Default true⟩ false ⟨1, 2⟩).value = some false ∧
      (AttributeInfo.set ⟨some true, dummySpan, .Default true⟩ false ⟨1, 2⟩).span = ⟨1, 2⟩) ∧
    (setAttrChecked ⟨some true, dummySpan, .Default true⟩ false ⟨1, 2⟩).2
      = [⟨.warning, "duplicate attribute assignment"⟩] :=
  ⟨(attribute_set_contract Bool ⟨some true, dummySpan, .Default true⟩ false ⟨1, 2⟩).1,
   (attribute_set_contract Bool ⟨some true, dummySpan, .Default true⟩ false ⟨1, 2⟩).2.1 rfl⟩

/-! ## The expression AST (front/ast) and capture-type inference
(compiler.rs 27-36, 404-472) -/

/-- An interned identifier; equality is by interning key, modelled by the
display name. -/
abbrev Ident := String

/-- The PEG expression AST (the clean AST the back-end receives). -/
inductive Expression
  | StrLiteral (s : List Char)
  | AnySingleChar
  | NonTerminalSymbol (id : Ident)
  | Sequence (children : List Expression)
  | Choice (children : List Expression)
  | ZeroOrMore (e : Expression)
  | OneOrMore (e : Expression)
  | Optional (e : Expression)
  | NotPredicate (e : Expression)
  | AndPredicate (e : Expression)
  | CharacterClass (intervals : List CharacterInterval)

/-- `enum AstRuleType` (compiler.rs 27-36). -/
inductive AstRuleType
  | Character
  | RuleTypePlaceholder (id : Ident)
  | Vector (t : AstRuleType)
  | Tuple (ts : List AstRuleType)
  | OptionalTy (t : AstRuleType)
  | Sum (branches : List AstRuleType)
  | SumBranch (ts : List AstRuleType)

/-- The local `flatten_tuple` of `type_of_choice_expr` (compiler.rs
444-450): a tuple contributes its component list, anything else a
singleton. -/
def flatten_tuple : AstRuleType → List AstRuleType
  | .Tuple tys => tys
  | ty => [ty]

mutual

/-- `type_of_expr` (compiler.rs 425-440). -/
def typeOfExpr : Expression → Option AstRuleType
  | .StrLiteral _ => none
  | .AnySingleChar => none
  | .NotPredicate _ => none
  | .AndPredicate _ => none
  | .NonTerminalSymbol id => some (.RuleTypePlaceholder id)
  | .CharacterClass _ => some .Character
  | .Sequence es =>
    let tys := seqTypes es
    if tys.isEmpty then none else some (.Tuple tys)
  | .Choice es => some (.Sum (sumBranches es))
  | .ZeroOrMore e => (typeOfExpr e).map .Vector
  | .OneOrMore e => (typeOfExpr e).map .Vector
  | .Optional e => (typeOfExpr e).map .OptionalTy

/-- The `filter_map(type_of_expr)` of `type_of_seq_expr`
(compiler.rs 463-465). -/
def seqTypes : List Expression → List AstRuleType
  | [] => []
  | e :: es =>
    match typeOfExpr e with
    | some t => t :: seqTypes es
    | none => seqTypes es

/-- The branch list built by `type_of_choice_expr` (compiler.rs 452-456):
each child contributes `SumBranch(flatten_tuple(type(child) or []))`. -/
def sumBranches : List Expression → List AstRuleType
  | [] => []
  | e :: es =>
    (AstRuleType.SumBranch (match typeOfExpr e with
      | some t => flatten_tuple t
      | none => [])) :: sumBranches es

end

/-- `type_of_seq_expr` (compiler.rs 461-472): filter out `None` child
types; `None` if nothing remains, else `Some(Tuple(tys))`. -/
def typeOfSeqExpr (es : List Expression) : Option AstRuleType :=
  let tys := seqTypes es
  if tys.isEmpty then none else some (.Tuple tys)

/-- `type_of_choice_expr` (compiler.rs 442-459). -/
def typeOfChoiceExpr (es : List Expression) : Option AstRuleType :=
  some (.Sum (sumBranches es))

/-- `type_of_expr` on a `Sequence` is `type_of_seq_expr` of the children. -/
theorem typeOfExpr_sequence (es : List Expression) :
    typeOfExpr (.Sequence es) = typeOfSeqExpr es := by
  simp [typeOfExpr, typeOfSeqExpr]

/-- `type_of_expr` on a `Choice` is `type_of_choice_expr` of the children. -/
theorem typeOfExpr_choice (es : List Expression) :
    typeOfExpr (.Choice es) = typeOfChoiceExpr es := by
  simp [typeOfExpr, typeOfChoiceExpr]

/-- `seqTypes` is exactly `filter_none` over the children's types. -/
theorem seqTypes_eq_filterMap (es : List Expression) :
    seqTypes es = es.filterMap typeOfExpr := by
  induction es with
  | nil => simp [seqTypes]
  | cons e es ih =>
    cases h : typeOfExpr e <;> simp [seqTypes, h, ih]

/-! ## Sequence capture types (C4) -/

/-- **C4 counterexample.** For the sequence `"a" [a-a]` the filtered child
types are the singleton `[Character]`; the claim prescribes the bare
element type `Character`, but `type_of_seq_expr` has no singleton case and
returns the one-element tuple `Tuple([Character])`, which differs from
`Character`. -/
theorem typeOfSeq_singleton_counterexample :
    List.filterMap typeOfExpr
        [Expression.StrLiteral ['a'], .CharacterClass [⟨'a', 'a'⟩]]
      = [AstRuleType.Character] ∧
    typeOfSeqExpr [.StrLiteral ['a'], .CharacterClass [⟨'a', 'a'⟩]]
      = some (.Tuple [.Character]) ∧
    AstRuleType.Tuple [.Character] ≠ AstRuleType.Character := by
  refine ⟨?_, ?_, ?_⟩
  · simp [typeOfExpr]
  · simp [typeOfSeqExpr, seqTypes, typeOfExpr]
  · intro h
    exact AstRuleType.noConfusion h

/-- **C4 (amended).** For every `Sequence` expression, letting `ts` be the
list of its children's inferred capture types with `None` entries filtered
out, the inferred capture type of the `Sequence` is `None` when `ts` is
empty and `Tuple(ts)` otherwise — also when `ts` has exactly one element,
in which case the result is the one-element tuple, not the bare element
type. -/
theorem typeOfSeq_contract (es : List Expression) :
    (es.filterMap typeOfExpr = [] → typeOfSeqExpr es = none) ∧
    (es.filterMap typeOfExpr ≠ [] →
      typeOfSeqExpr es = some (.Tuple (es.filterMap typeOfExpr))) := by
  constructor
  · intro h
    simp [typeOfSeqExpr, seqTypes_eq_filterMap, h]
  · intro h
    simp [typeOfSeqExpr, seqTypes_eq_filterMap, List.isEmpty_iff, h]

/-- Witness for `typeOfSeq_contract` at the sequence `"a" [a-a]`, whose
filtered type list is the non-empty `[Character]`. -/
theorem typeOfSeq_contract_witness :
    typeOfSeqExpr [.StrLiteral ['a'], .CharacterClass [⟨'a', 'a'⟩]]
      = some (.Tuple (List.filterMap typeOfExpr
          [Expression.StrLiteral ['a'], .CharacterClass [⟨'a', 'a'⟩]])) :=
  (typeOfSeq_contract [.StrLiteral ['a'], .CharacterClass [⟨'a', 'a'⟩]]).2
    (by simp [typeOfExpr])

/-! ## Grammar, rules and the generated `ast` module (C3) -/

/-- A clean-AST rule `(name, def)` (middle/clean_ast); the body field is
called `def` in the source, a reserved word here. -/
structure Rule where
  name : Ident
  body : Expression

/-- The clean-AST grammar the back-end compiles. -/
structure Grammar where
  name : Ident
  rules : List Rule
  start_rule_idx : Nat
  print_generated : Bool

/-- `type_of_rule` (compiler.rs 420-423). -/
def typeOfRule (r : Rule) : Option AstRuleType :=
  typeOfExpr r.body

/-- `compile_ast` (compiler.rs 404-418): the per-rule capture types are
computed into `rules_types`, but the emitted item is the literal quotation
`pub mod ast { }` — the map is dropped and the module contains no
declarations.  The result is the list of declarations inside `mod ast`. -/
def compileAst (g : Grammar) : List (Ident × Option AstRuleType) :=
  let _rules_types := g.rules.map (fun r => (r.name, typeOfRule r))
  []

/-- The shape of the module emitted by `compile_peg` (compiler.rs
77-153): the nested `ast` module's declarations, one matcher per rule, and
the `parse` entry point dispatching to the start rule. -/
structure GeneratedModule where
  astItems : List (Ident × Option AstRuleType)
  matcherNames : List Ident
  startRuleName : Ident

/-- `compile_peg` (compiler.rs 77-153), at the level of the module shape:
the nested `ast` module comes from `compile_ast`, one matcher is emitted
per rule, and the entry point calls the start rule. -/
def compilePeg (g : Grammar) : GeneratedModule :=
  { astItems := compileAst g
    matcherNames := g.rules.map Rule.name
    startRuleName := (g.rules.getD g.start_rule_idx ⟨"", .AnySingleChar⟩).name }

/-- The one-rule grammar `r = [a-a]`, whose single rule captures a
character. -/
def classGrammar : Grammar :=
  { name := "g"
    rules := [⟨"r", .CharacterClass [⟨'a', 'a'⟩]⟩]
    start_rule_idx := 0
    print_generated := false }

/-- **C3 counterexample.** The grammar `r = [a-a]` performs a capture (its
rule's inferred type is `Character`, not `None`), yet the `ast` namespace
in the generated module is empty — so the namespace is not "empty only
when the grammar performs no capture". -/
theorem compileAst_empty_despite_capture :
    typeOfRule ⟨"r", .CharacterClass [⟨'a', 'a'⟩]⟩ = some .Character ∧
    (compilePeg classGrammar).astItems = [] := by
  constructor
  · simp [typeOfRule, typeOfExpr]
  · rfl

/-- **C3 (amended).** The module generated for a grammar contains a nested
`ast` namespace, but it is always empty: `compile_ast` computes the
capture types inferred for the grammar's rules and then drops them,
emitting `pub mod ast { }` with no declarations — whether or not the
grammar performs a capture. -/
theorem compileAst_always_empty (g : Grammar) :
    (compilePeg g).astItems = [] :=
  rfl

/-! ## Normalization and type stability (C5)

Normalization is performed by the semantic analyser, whose source is not
among the files under verification; it is modelled from the specification
(§4.4.6): fold nested Sequences into a single Sequence, likewise Choices,
and drop singleton wrappers.  The type inference above is from the
source. -/

/-- The child list a `Sequence` contributes when folded into an enclosing
`Sequence`; any other expression contributes itself. -/
def seqChildren : Expression → List Expression
  | .Sequence xs => xs
  | e => [e]

/-- The child list a `Choice` contributes when folded into an enclosing
`Choice`; any other expression contributes itself. -/
def choiceChildren : Expression → List Expression
  | .Choice xs => xs
  | e => [e]

/-- Fold directly-nested `Sequence` children into the surrounding list. -/
def flattenSeq (es : List Expression) : List Expression :=
  es.foldr (fun e acc => seqChildren e ++ acc) []

/-- Fold directly-nested `Choice` children into the surrounding list. -/
def flattenChoice (es : List Expression) : List Expression :=
  es.foldr (fun e acc => choiceChildren e ++ acc) []

mutual

/-- Modelled from the spec: the semantic analyser's normalization
(§4.4.6), not among the files under verification — fold nested Sequences
into a single Sequence, likewise Choices, and drop singleton wrappers. -/
def normalizeExpr : Expression → Expression
  | .StrLiteral s => .StrLiteral s
  | .AnySingleChar => .AnySingleChar
  | .NonTerminalSymbol id => .NonTerminalSymbol id
  | .CharacterClass ivs => .CharacterClass ivs
  | .Sequence es =>
    match flattenSeq (normList es) with
    | [e] => e
    | es' => .Sequence es'
  | .Choice es =>
    match flattenChoice (normList es) with
    | [e] => e
    | es' => .Choice es'
  | .ZeroOrMore e => .ZeroOrMore (normalizeExpr e)
  | .OneOrMore e => .OneOrMore (normalizeExpr e)
  | .Optional e => .Optional (normalizeExpr e)
  | .NotPredicate e => .NotPredicate (normalizeExpr e)
  | .AndPredicate e => .AndPredicate (normalizeExpr e)

/-- `normalizeExpr` mapped over a child list. -/
def normList : List Expression → List Expression
  | [] => []
  | e :: es => normalizeExpr e :: normList es

end

/-- Whether an expression is a `Sequence`. -/
def isSeq : Expression → Bool
  | .Sequence _ => true
  | _ => false

/-- Whether an expression is a `Choice`. -/
def isChoice : Expression → Bool
  | .Choice _ => true
  | _ => false

mutual

/-- An expression is in normal form: `Sequence`/`Choice` child lists have
length ≥ 2, no `Sequence` child directly under a `Sequence` and no
`Choice` child directly under a `Choice`, recursively. -/
def isNormalized : Expression → Bool
  | .StrLiteral _ => true
  | .AnySingleChar => true
  | .NonTerminalSymbol _ => true
  | .CharacterClass _ => true
  | .Sequence es =>
    decide (2 ≤ es.length) && es.all (fun e => !(isSeq e)) && allNormalized es
  | .Choice es =>
    decide (2 ≤ es.length) && es.all (fun e => !(isChoice e)) && allNormalized es
  | .ZeroOrMore e => isNormalized e
  | .OneOrMore e => isNormalized e
  | .Optional e => isNormalized e
  | .NotPredicate e => isNormalized e
  | .AndPredicate e => isNormalized e

/-- `isNormalized` over a child list. -/
def allNormalized : List Expression → Bool
  | [] => true
  | e :: es => isNormalized e && allNormalized es

end

/-- Flattening a list with no `Sequence` element changes nothing. -/
theorem flattenSeq_eq_self (es : List Expression)
    (h : ∀ e ∈ es, isSeq e = false) : flattenSeq es = es := by
  induction es with
  | nil => rfl
  | cons e es ih =>
    have he : seqChildren e = [e] := by
      cases e <;> simp_all [seqChildren, isSeq]
    simp [flattenSeq] at ih ⊢
    rw [he, ih (fun x hx => h x (List.mem_cons_of_mem e hx))]
    rfl

/-- Flattening a list with no `Choice` element changes nothing. -/
theorem flattenChoice_eq_self (es : List Expression)
    (h : ∀ e ∈ es, isChoice e = false) : flattenChoice es = es := by
  induction es with
  | nil => rfl
  | cons e es ih =>
    have he : choiceChildren e = [e] := by
      cases e <;> simp_all [choiceChildren, isChoice]
    simp [flattenChoice] at ih ⊢
    rw [he, ih (fun x hx => h x (List.mem_cons_of_mem e hx))]
    rfl

mutual

/-- Normalization is the identity on expressions already in normal form. -/
theorem normalize_eq_self : ∀ (e : Expression),
    isNormalized e = true → normalizeExpr e = e
  | .StrLiteral _, _ => by simp [normalizeExpr]
  | .AnySingleChar, _ => by simp [normalizeExpr]
  | .NonTerminalSymbol _, _ => by simp [normalizeExpr]
  | .CharacterClass _, _ => by simp [normalizeExpr]
  | .Sequence es, h => by
    simp only [isNormalized, Bool.and_eq_true, List.all_eq_true,
      decide_eq_true_eq, Bool.not_eq_true'] at h
    obtain ⟨⟨hlen, hns⟩, hnorm⟩ := h
    have h1 : normList es = es := normList_eq_self es hnorm
    have h2 : flattenSeq es = es := flattenSeq_eq_self es hns
    rw [normalizeExpr, h1, h2]
    match es, hlen with
    | e1 :: e2 :: es', _ => rfl
  | .Choice es, h => by
    simp only [isNormalized, Bool.and_eq_true, List.all_eq_true,
      decide_eq_true_eq, Bool.not_eq_true'] at h
    obtain ⟨⟨hlen, hnc⟩, hnorm⟩ := h
    have h1 : normList es = es := normList_eq_self es hnorm
    have h2 : flattenChoice es = es := flattenChoice_eq_self es hnc
    rw [normalizeExpr, h1, h2]
    match es, hlen with
    | e1 :: e2 :: es', _ => rfl
  | .ZeroOrMore e, h => by
    rw [normalizeExpr, normalize_eq_self e (by simpa [isNormalized] using h)]
  | .OneOrMore e, h => by
    rw [normalizeExpr, normalize_eq_self e (by simpa [isNormalized] using h)]
  | .Optional e, h => by
    rw [normalizeExpr, normalize_eq_self e (by simpa [isNormalized] using h)]
  | .NotPredicate e, h => by
    rw [normalizeExpr, normalize_eq_self e (by simpa [isNormalized] using h)]
  | .AndPredicate e, h => by
    rw [normalizeExpr, normalize_eq_self e (by simpa [isNormalized] using h)]

/-- `normList` is the identity on lists of normal-form expressions. -/
theorem normList_eq_self : ∀ (es : List Expression),
    allNormalized es = true → normList es = es
  | [], _ => rfl
  | e :: es, h => by
    simp only [allNormalized, Bool.and_eq_true] at h
    rw [normList, normalize_eq_self e h.1, normList_eq_self es h.2]

end

/-- The character class `[a-a]`, a children-free expression with capture
type `Character`; a convenient building block for concrete rule bodies. -/
def ccExpr : Expression := .CharacterClass [⟨'a', 'a'⟩]

/-- **C5 counterexample.** For the rule body
`b = Sequence(Sequence([a-a], [a-a]), [a-a])`, folding the nested
`Sequence` (normalization) changes the inferred capture type: before
normalization the type is `Tuple(Tuple(Character, Character), Character)`,
after it is the flat `Tuple(Character, Character, Character)` — so
`type(b)` is not stable under normalization. -/
theorem type_not_stable_under_normalization :
    normalizeExpr (.Sequence [.Sequence [ccExpr, ccExpr], ccExpr])
      = .Sequence [ccExpr, ccExpr, ccExpr] ∧
    typeOfExpr (.Sequence [.Sequence [ccExpr, ccExpr], ccExpr])
      = some (.Tuple [.Tuple [.Character, .Character], .Character]) ∧
    typeOfExpr (.Sequence [ccExpr, ccExpr, ccExpr])
      = some (.Tuple [.Character, .Character, .Character]) ∧
    typeOfExpr (normalizeExpr (.Sequence [.Sequence [ccExpr, ccExpr], ccExpr]))
      ≠ typeOfExpr (.Sequence [.Sequence [ccExpr, ccExpr], ccExpr]) := by
  refine ⟨?_, ?_, ?_, ?_⟩
  · simp [normalizeExpr, normList, flattenSeq, seqChildren, ccExpr]
  · simp [typeOfExpr, seqTypes, ccExpr]
  · simp [typeOfExpr, seqTypes, ccExpr]
  · simp [normalizeExpr, normList, flattenSeq, seqChildren,
      typeOfExpr, seqTypes, ccExpr]

/-- **C5 (amended).** The inferred capture type is stable under
normalization only on rule bodies already in normal form (in particular on
every clean-AST body the back-end receives, since the analyser normalizes
before typing): for normal-form `b`, normalization is the identity, so
`type(normalize b) = type(b)`.  On un-normalized bodies, folding nested
Sequences/Choices or dropping singleton wrappers can change the type, as
the counterexample shows. -/
theorem type_stable_on_normalized (b : Expression)
    (h : isNormalized b = true) :
    typeOfExpr (normalizeExpr b) = typeOfExpr b := by
  rw [normalize_eq_self b h]

/-- Witness for `type_stable_on_normalized` at the normal-form body
`Sequence([a-a], "a")`. -/
theorem type_stable_on_normalized_witness :
    typeOfExpr (normalizeExpr (.Sequence [ccExpr, .StrLiteral ['a']]))
      = typeOfExpr (.Sequence [ccExpr, .StrLiteral ['a']]) :=
  type_stable_on_normalized (.Sequence [ccExpr, .StrLiteral ['a']])
    (by simp [isNormalized, allNormalized, isSeq, ccExpr])

end Oak
